import Mathlib

/-!
Shallow embedding of `src/streams/overeager_receivers.rs` from the rspl
repository, together with a model of the crossbeam channel primitive the
adapter consumes (queue contents, optional capacity bound, and whether the
sending side is still connected).  The adapter exclusively owns its
receiving handle, so the channel state is carried inside the stream state
and producer-side sends are modelled as operations on that state.
-/

namespace Rspl

/-- Model of the crossbeam channel the adapter consumes.
`bound = some k` is a `bounded(k)` channel, `bound = none` an `unbounded()`
one.  `queue` is the list of sent-but-unreceived values, oldest first.
`senderAlive` records whether the sending half is still connected
(`false` once every `Sender` has been dropped). -/
structure Channel (X : Type) where
  bound : Option Nat
  queue : List X
  senderAlive : Bool
deriving DecidableEq, Repr

/-- `crossbeam::channel::bounded(cap)`: fresh empty bounded channel. -/
def Channel.bounded {X : Type} (cap : Nat) : Channel X :=
  { bound := some cap, queue := [], senderAlive := true }

/-- `crossbeam::channel::unbounded()`: fresh empty unbounded channel. -/
def Channel.unbounded {X : Type} : Channel X :=
  { bound := none, queue := [], senderAlive := true }

/-- Dropping the sending half of the channel. -/
def Channel.dropSender {X : Type} (c : Channel X) : Channel X :=
  { c with senderAlive := false }

/-- Outcome of `Receiver::recv`: a value is dequeued, or the call blocks
(queue empty, sender still connected), or it returns `Err(RecvError)`
(queue empty and every sender dropped). -/
inductive RecvResult (X : Type) where
  | ok : X → Channel X → RecvResult X
  | blocked : RecvResult X
  | disconnected : RecvResult X
deriving DecidableEq, Repr

/-- `Receiver::recv`: dequeues the oldest pending value if one exists
(also when the sender has been dropped); on an empty queue it blocks
while the sender is connected and errors once it is dropped. -/
def Channel.recv {X : Type} (c : Channel X) : RecvResult X :=
  match c.queue with
  | v :: rest => .ok v { c with queue := rest }
  | [] => if c.senderAlive then .blocked else .disconnected

/-- Outcome of `Sender::send`: the value is enqueued, or the call blocks
because the channel is bounded and full. -/
inductive SendResult (X : Type) where
  | ok : Channel X → SendResult X
  | blocked : SendResult X
deriving DecidableEq, Repr

/-- `Sender::send`: enqueues at the back; a bounded channel that already
holds `k` values blocks the producer. -/
def Channel.send {X : Type} (c : Channel X) (v : X) : SendResult X :=
  match c.bound with
  | some k =>
      if c.queue.length < k then .ok { c with queue := c.queue ++ [v] }
      else .blocked
  | none => .ok { c with queue := c.queue ++ [v] }

/-- A producer sending a list of values in order (the `enqueue!` test
macro); `none` when some send blocks on a full bounded channel. -/
def Channel.sendAll {X : Type} (c : Channel X) : List X → Option (Channel X)
  | [] => some c
  | v :: vs =>
      match c.send v with
      | .ok c2 => Channel.sendAll c2 vs
      | .blocked => none

/-- `OvereagerReceiver<X>`: the overeagerly received `message` buffer and
the receiving half of the channel. -/
structure OvereagerReceiver (X : Type) where
  message : X
  receiver : Channel X
deriving DecidableEq, Repr

/-- `OvereagerReceiver::channel(cap, message)`: builds
`(tx, Self { message, receiver })` over `bounded(cap)` if `cap > 0`, else
`unbounded()`.  The sending half acts through `Channel.send` on the
carried channel state. -/
def OvereagerReceiver.channel {X : Type} (cap : Nat) (message : X) :
    OvereagerReceiver X :=
  { message := message
    receiver := if cap > 0 then Channel.bounded cap else Channel.unbounded }

/-- `fn head(&self) -> &X { &self.message }` -/
def OvereagerReceiver.head {X : Type} (s : OvereagerReceiver X) : X :=
  s.message

/-- Calling `head` through the `&self` borrow: the caller gets the value
back together with the (unconsumed) state. -/
def OvereagerReceiver.headCall {X : Type} (s : OvereagerReceiver X) :
    X × OvereagerReceiver X :=
  (s.head, s)

/-- `n` successive `head` calls with no intervening `tail`, threading the
state through each `&self` borrow. -/
def OvereagerReceiver.readN {X : Type} :
    Nat → OvereagerReceiver X → List X × OvereagerReceiver X
  | 0, s => ([], s)
  | n + 1, s =>
      let p := s.headCall
      let q := OvereagerReceiver.readN n p.2
      (p.1 :: q.1, q.2)

/-- Outcome of `fn tail(mut self) -> Self`: a new state, or the panic from
`recv().unwrap()` on a disconnected empty channel, or blocking on an empty
connected channel. -/
inductive TailResult (X : Type) where
  | ok : OvereagerReceiver X → TailResult X
  | panic : TailResult X
  | blocked : TailResult X
deriving DecidableEq, Repr

/-- `fn tail(mut self) -> Self { self.message = self.receiver.recv().unwrap(); self }` -/
def OvereagerReceiver.tail {X : Type} (s : OvereagerReceiver X) : TailResult X :=
  match s.receiver.recv with
  | .ok v c => .ok { message := v, receiver := c }
  | .blocked => .blocked
  | .disconnected => .panic

/-- `n` rounds of `tail` then `head`, collecting the heads; `none` if some
`tail` fails to return a state. -/
def OvereagerReceiver.collectHeads {X : Type} :
    Nat → OvereagerReceiver X → Option (List X)
  | 0, _ => some []
  | n + 1, s =>
      match s.tail with
      | .ok t => (OvereagerReceiver.collectHeads n t).map (fun vs => t.head :: vs)
      | .panic => none
      | .blocked => none

end Rspl

namespace Rspl

/-- Helper: from any state whose channel queue is `vs`, `vs.length` rounds
of `tail`-then-`head` succeed and collect exactly `vs`. -/
theorem collectHeads_of_queue {X : Type} (vs : List X) :
    ∀ s : OvereagerReceiver X, s.receiver.queue = vs →
      s.collectHeads vs.length = some vs := by
  induction vs with
  | nil => intro s h; rfl
  | cons v vs ih =>
      intro s h
      obtain ⟨msg, b, q, a⟩ := s
      dsimp at h
      subst h
      simpa [OvereagerReceiver.collectHeads, OvereagerReceiver.tail,
        Channel.recv, OvereagerReceiver.head] using
        ih { message := v, receiver := { bound := b, queue := vs, senderAlive := a } } rfl

/-- Helper: when every send succeeds, `sendAll` appends the sent values,
in order, to the back of the queue and changes nothing else. -/
theorem sendAll_some {X : Type} (vs : List X) :
    ∀ c ch : Channel X, Channel.sendAll c vs = some ch →
      ch = { c with queue := c.queue ++ vs } := by
  induction vs with
  | nil =>
      intro c ch h
      simp only [Channel.sendAll, Option.some.injEq] at h
      simp [← h]
  | cons v vs ih =>
      intro c ch h
      obtain ⟨b, q, a⟩ := c
      cases b with
      | none =>
          have := ih { bound := none, queue := q ++ [v], senderAlive := a } ch
            (by simpa [Channel.sendAll, Channel.send] using h)
          simpa [List.append_assoc] using this
      | some k =>
          by_cases hq : q.length < k
          · have := ih { bound := some k, queue := q ++ [v], senderAlive := a } ch
              (by simpa [Channel.sendAll, Channel.send, hq] using h)
            simpa [List.append_assoc] using this
          · simp [Channel.sendAll, Channel.send, hq] at h

/-- Helper: on an unbounded channel every send succeeds. -/
theorem sendAll_unbounded {X : Type} (vs : List X) :
    ∀ (q : List X) (a : Bool),
      Channel.sendAll { bound := none, queue := q, senderAlive := a } vs =
        some { bound := none, queue := q ++ vs, senderAlive := a } := by
  induction vs with
  | nil => intro q a; simp [Channel.sendAll]
  | cons v vs ih =>
      intro q a
      simpa [Channel.sendAll, Channel.send, List.append_assoc] using ih (q ++ [v]) a

/-- Helper: on a bounded channel of capacity `k` whose queue holds `q`,
sending the list `vs` succeeds in full iff it fits: `vs` is empty or
`q.length + vs.length ≤ k`. -/
theorem sendAll_bounded_succeeds_iff {X : Type} (k : Nat) (a : Bool) (vs : List X) :
    ∀ q : List X,
      (∃ c, Channel.sendAll
          { bound := some k, queue := q, senderAlive := a } vs = some c) ↔
        (vs = [] ∨ q.length + vs.length ≤ k) := by
  induction vs with
  | nil => intro q; simp [Channel.sendAll]
  | cons v vs ih =>
      intro q
      by_cases hq : q.length < k
      · rw [show Channel.sendAll { bound := some k, queue := q, senderAlive := a }
              (v :: vs) =
            Channel.sendAll { bound := some k, queue := q ++ [v], senderAlive := a }
              vs by simp [Channel.sendAll, Channel.send, hq]]
        rw [ih (q ++ [v])]
        simp only [List.length_append, List.length_cons, List.length_nil,
          List.cons_ne_nil, false_or]
        constructor
        · rintro (rfl | hle)
          · simp only [List.length_nil]; omega
          · omega
        · intro hle
          exact Or.inr (by omega)
      · rw [show Channel.sendAll { bound := some k, queue := q, senderAlive := a }
              (v :: vs) = none by simp [Channel.sendAll, Channel.send, hq]]
        simp only [List.length_cons]
        constructor
        · rintro ⟨c, hc⟩; cases hc
        · rintro (h | hle)
          · exact absurd h (List.cons_ne_nil v vs)
          · omega

end Rspl

namespace Rspl

/-- C3: immediately after `channel(cap, p)` and before any `tail`, `head`
returns exactly the placeholder `p`, for every capacity `cap`. -/
theorem channel_head_is_placeholder {X : Type} (cap : Nat) (p : X) :
    (OvereagerReceiver.channel cap p).head = p := rfl

/-- C10: `head` is exactly the state's stored `message` field, for an
arbitrary element type `X` with no constraints at all. -/
theorem head_is_message_field (X : Type) (s : OvereagerReceiver X) :
    s.head = s.message := rfl

/-- C7: `head` is total and never consults the channel: whatever the
channel's contents, bound, or connectedness, `head` returns the buffered
message. -/
theorem head_total_nonblocking {X : Type} (msg : X) (c : Channel X) :
    OvereagerReceiver.head { message := msg, receiver := c } = msg := rfl

/-- C9: the placeholder never influences `tail`: for any two placeholders
over identical channel contents, the two `tail` outcomes are identical
states (hence observationally identical under `head` and every further
operation). -/
theorem tail_placeholder_noninterference {X : Type} (p1 p2 : X) (c : Channel X) :
    OvereagerReceiver.tail { message := p1, receiver := c } =
      OvereagerReceiver.tail { message := p2, receiver := c } := rfl

/-- C1: `tail` panics exactly when the channel is permanently exhausted —
queue empty and sender dropped; whenever a value is pending, `tail`
instead returns a new stream state. -/
theorem tail_fatal_iff_exhausted {X : Type} (s : OvereagerReceiver X) :
    (s.tail = TailResult.panic ↔
      s.receiver.queue = [] ∧ s.receiver.senderAlive = false) ∧
    (s.receiver.queue ≠ [] → ∃ t, s.tail = TailResult.ok t) := by
  obtain ⟨msg, b, q, a⟩ := s
  cases q with
  | nil => cases a <;> simp [OvereagerReceiver.tail, Channel.recv]
  | cons v rest =>
      refine ⟨by simp [OvereagerReceiver.tail, Channel.recv], fun _ => ?_⟩
      exact ⟨{ message := v
               receiver := { bound := b, queue := rest, senderAlive := a } }, rfl⟩

/-- Witness for C1 at concrete states: with `5` pending, `tail` succeeds. -/
theorem tail_fatal_iff_exhausted_witness :
    ∃ t, OvereagerReceiver.tail
      { message := (0 : Nat),
        receiver := { bound := none, queue := [5], senderAlive := true } } =
      TailResult.ok t :=
  (tail_fatal_iff_exhausted
    { message := (0 : Nat),
      receiver := { bound := none, queue := [5], senderAlive := true } }).2
    (by decide)

/-- C2: whenever a producer's in-order sends of `v1, ..., vn` into a fresh
`channel(cap, p)` all go through, `n` rounds of `tail`-then-`head` yield
exactly `v1, ..., vn`, none skipped or duplicated. -/
theorem order_preservation {X : Type} (p : X) (vs : List X) (cap : Nat)
    (ch : Channel X)
    (hsend : Channel.sendAll (OvereagerReceiver.channel cap p).receiver vs =
      some ch) :
    OvereagerReceiver.collectHeads vs.length
      { message := p, receiver := ch } = some vs := by
  have hq0 : (OvereagerReceiver.channel cap p).receiver.queue = [] := by
    unfold OvereagerReceiver.channel
    split <;> rfl
  have hch := sendAll_some vs _ ch hsend
  refine collectHeads_of_queue vs _ ?_
  simp [hch, hq0]

/-- Witness for C2: sending `[1, 2]` into `channel(0, 0)` and collecting
two heads returns `[1, 2]`. -/
theorem order_preservation_witness :
    OvereagerReceiver.collectHeads 2
      { message := (0 : Nat),
        receiver := { bound := none, queue := [1, 2], senderAlive := true } } =
      some [1, 2] :=
  order_preservation 0 [1, 2] 0
    { bound := none, queue := [1, 2], senderAlive := true } (by decide)

/-- C4: a stream state always holds exactly one buffered value — `head` is
defined with a unique result on every state, including every state a
successful `tail` returns; there is no empty or closed state. -/
theorem buffered_value_invariant {X : Type} (s : OvereagerReceiver X) :
    (∃! v, s.head = v) ∧
      ∀ t : OvereagerReceiver X, s.tail = TailResult.ok t → ∃! v, t.head = v := by
  exact ⟨⟨s.message, rfl, fun v h => h.symm⟩,
    fun t _ => ⟨t.message, rfl, fun v h => h.symm⟩⟩

/-- Witness for C4: the state reached by one successful `tail` from a
channel holding `7` has the unique head `7`. -/
theorem buffered_value_invariant_witness :
    ∃! v, OvereagerReceiver.head
      { message := (7 : Nat),
        receiver := { bound := none, queue := [], senderAlive := true } } = v :=
  (buffered_value_invariant
    { message := (0 : Nat),
      receiver := { bound := none, queue := [7], senderAlive := true } }).2
    { message := 7, receiver := { bound := none, queue := [], senderAlive := true } }
    (by decide)

/-- C5: a successful `tail` dequeues exactly the oldest pending value,
installs it as the new buffered message, and leaves the receiving handle
otherwise untouched (same bound, same remaining queue, same sender
status). -/
theorem tail_consumes_exactly_one {X : Type} (s : OvereagerReceiver X)
    (v : X) (rest : List X) (h : s.receiver.queue = v :: rest) :
    s.tail = TailResult.ok
      { message := v, receiver := { s.receiver with queue := rest } } := by
  obtain ⟨msg, b, q, a⟩ := s
  dsimp at h
  subst h
  rfl

/-- Witness for C5 at a concrete state with queue `[3, 4]`. -/
theorem tail_consumes_exactly_one_witness :
    OvereagerReceiver.tail
      { message := (0 : Nat),
        receiver := { bound := some 2, queue := [3, 4], senderAlive := true } } =
      TailResult.ok
        { message := 3,
          receiver := { bound := some 2, queue := [4], senderAlive := true } } :=
  tail_consumes_exactly_one
    { message := (0 : Nat),
      receiver := { bound := some 2, queue := [3, 4], senderAlive := true } }
    3 [4] (by decide)

/-- C6: any number of `head` calls without an intervening `tail` all
return the same value (the buffered message) and hand the state back
unchanged — `head` neither consumes a channel value nor mutates the
state. -/
theorem head_read_stability {X : Type} (n : Nat) (s : OvereagerReceiver X) :
    s.readN n = (List.replicate n s.head, s) := by
  induction n with
  | zero => rfl
  | succ n ih =>
      simp [OvereagerReceiver.readN, OvereagerReceiver.headCall, ih,
        List.replicate_succ]

/-- C8: `channel(cap, p)` builds a bounded channel of capacity exactly
`cap` when `cap > 0` — a batch of sends goes through iff it fits in `cap`
— and an unbounded channel when `cap = 0`, on which every batch of sends
goes through; construction itself is a total function with no error
outcome. -/
theorem channel_capacity_semantics {X : Type} (cap : Nat) (p : X) :
    (0 < cap →
      (OvereagerReceiver.channel cap p).receiver = Channel.bounded cap ∧
      ∀ vs : List X,
        (∃ c, Channel.sendAll (OvereagerReceiver.channel cap p).receiver vs =
          some c) ↔ vs.length ≤ cap) ∧
    (cap = 0 →
      (OvereagerReceiver.channel cap p).receiver = Channel.unbounded ∧
      ∀ vs : List X,
        ∃ c, Channel.sendAll (OvereagerReceiver.channel cap p).receiver vs =
          some c) := by
  constructor
  · intro hcap
    have hrecv : (OvereagerReceiver.channel cap p).receiver = Channel.bounded cap := by
      simp [OvereagerReceiver.channel, hcap]
    refine ⟨hrecv, fun vs => ?_⟩
    rw [hrecv]
    rw [show (Channel.bounded cap : Channel X) =
      { bound := some cap, queue := [], senderAlive := true } from rfl]
    rw [sendAll_bounded_succeeds_iff cap true vs []]
    constructor
    · rintro (rfl | hle)
      · exact Nat.zero_le cap
      · simpa using hle
    · intro hle
      right; simpa using hle
  · intro hcap
    subst hcap
    refine ⟨rfl, fun vs => ?_⟩
    exact ⟨_, sendAll_unbounded vs [] true⟩

/-- Witness for C8: on `channel(1, 0)` a single send fits the capacity,
and on `channel(0, 0)` a batch of three sends goes through. -/
theorem channel_capacity_semantics_witness :
    (∃ c, Channel.sendAll
        (OvereagerReceiver.channel 1 (0 : Nat)).receiver [5] = some c) ∧
    (∃ c, Channel.sendAll
        (OvereagerReceiver.channel 0 (0 : Nat)).receiver [1, 2, 3] = some c) :=
  ⟨(((channel_capacity_semantics 1 (0 : Nat)).1 (by decide)).2 [5]).2 (by decide),
   ((channel_capacity_semantics 0 (0 : Nat)).2 rfl).2 [1, 2, 3]⟩

end Rspl
